import Mathlib

/-!
Verification development for the golden-rule retrieval store
(`rule_storage.py`) and the static/dynamic prompt formatters
(`prompt_builder.py`) of the content_generator repository.

The Python source is shallowly embedded: pure helpers become Lean
functions over `List Char` / `List String`; the OpenAI embedding client
and the optional faiss index are external collaborators and are modelled
as function-valued parameters; float arithmetic is modelled over `ℝ`
(scores) with exact rational vector entries; fallible code returns
`Except String`.
-/

namespace ContentGen

/-! ## Python string primitives (modelled on `List Char` so they reduce) -/

/-- Does the character list `n` occur at the start of `h`?  (Helper for
Python's substring test.) -/
def charsStartWith : List Char → List Char → Bool
  | [], _ => true
  | _ :: _, [] => false
  | a :: as, b :: bs => a == b && charsStartWith as bs

/-- Does the character list `needle` occur contiguously anywhere inside
`hay`?  Models Python's `needle in hay` on strings. -/
def hasSeq (needle : List Char) : List Char → Bool
  | [] => charsStartWith needle []
  | c :: rest => charsStartWith needle (c :: rest) || hasSeq needle rest

/-- Python `needle in hay` for strings. -/
def strContains (hay needle : String) : Bool :=
  hasSeq needle.data hay.data

/-- Python `str.lower()` (ASCII-adequate model). -/
def pyLower (s : String) : String :=
  ⟨s.data.map Char.toLower⟩

/-- Python `str.strip()`: drop leading and trailing whitespace. -/
def pyStrip (s : String) : String :=
  ⟨((s.data.dropWhile Char.isWhitespace).reverse.dropWhile Char.isWhitespace).reverse⟩

/-- Split a character list into its maximal runs of non-whitespace
characters.  `acc` is the current run, reversed. -/
def splitWSAux : List Char → List Char → List (List Char)
  | acc, [] => if acc = [] then [] else [acc.reverse]
  | acc, c :: rest =>
    if c.isWhitespace then
      if acc = [] then splitWSAux [] rest else acc.reverse :: splitWSAux [] rest
    else splitWSAux (c :: acc) rest

/-- The word list of a string: models `re.sub(r"\s+", " ", text).strip()`
followed by `.split(" ")` (which yields exactly the maximal
non-whitespace runs).  Empty / whitespace-only input gives `[]`. -/
def pySplitWS (s : String) : List String :=
  (splitWSAux [] s.data).map fun cs => ⟨cs⟩

/-- Python `sep.join(xs)`. -/
def joinSep (sep : String) : List String → String
  | [] => ""
  | [x] => x
  | x :: y :: rest => x ++ sep ++ joinSep sep (y :: rest)

/-- Python `str.title()`: a letter is uppercased when it follows a
non-letter, lowercased otherwise. -/
def pyTitleAux : Bool → List Char → List Char
  | _, [] => []
  | prevAlpha, c :: rest =>
    if c.isAlpha then
      (if prevAlpha then c.toLower else c.toUpper) :: pyTitleAux true rest
    else c :: pyTitleAux false rest

/-- Python `str.title()`. -/
def pyTitle (s : String) : String :=
  ⟨pyTitleAux false s.data⟩

/-- Code-point comparison of character lists (Python string `<=`). -/
def charsLe : List Char → List Char → Bool
  | [], _ => true
  | _ :: _, [] => false
  | a :: as, b :: bs => if a < b then true else if b < a then false else charsLe as bs

/-- Python string comparison `a <= b`. -/
def strLeb (a b : String) : Bool :=
  charsLe a.data b.data

/-- Insert a string into an already sorted list. -/
def insertSorted (x : String) : List String → List String
  | [] => [x]
  | y :: ys => if strLeb x y then x :: y :: ys else y :: insertSorted x ys

/-- Python `sorted` on a list of strings (insertion sort, code-point
order). -/
def sortStrings : List String → List String
  | [] => []
  | x :: xs => insertSorted x (sortStrings xs)

/-- Keep the first occurrence of each string, in order (Python
`set`-based de-duplication loop). -/
def dedupStringsAux : List String → List String → List String
  | _, [] => []
  | seen, c :: rest =>
    if c ∈ seen then dedupStringsAux seen rest
    else c :: dedupStringsAux (c :: seen) rest

/-! ## Tagger (`_guess_tags_from_text`, rule_storage.py lines 48-61) -/

/-- Keyword vocabulary for the "seo" tag. -/
def seoKeywords : List String := ["seo", "search", "keyword", "serp", "aeo"]

/-- Keyword vocabulary for the "structure" tag. -/
def structureKeywords : List String := ["structure", "layout", "sections", "heading", "outline"]

/-- Keyword vocabulary for the "cta" tag. -/
def ctaKeywords : List String := ["cta", "call to action", "conversion", "button"]

/-- Keyword vocabulary for the "tone" tag. -/
def toneKeywords : List String := ["tone", "voice", "empathy", "personality", "brand"]

/-- `_guess_tags_from_text`: case-insensitive substring matching against
the four vocabularies; `{"general"}` when none matches; result sorted
(Python builds a `set`, then `sorted`). -/
def _guess_tags_from_text (text : String) : List String :=
  let lowered := pyLower text
  let tags :=
    (if seoKeywords.any fun kw => strContains lowered kw then ["seo"] else []) ++
    (if structureKeywords.any fun kw => strContains lowered kw then ["structure"] else []) ++
    (if ctaKeywords.any fun kw => strContains lowered kw then ["cta"] else []) ++
    (if toneKeywords.any fun kw => strContains lowered kw then ["tone"] else [])
  let tags := if tags = [] then ["general"] else tags
  sortStrings tags

/-! ## Chunker (`chunk_golden_rules`, rule_storage.py lines 64-90)

The `while` loop is modelled with explicit fuel: `none` means the fuel
ran out, which happens exactly when the Python loop would not have
terminated within that many iterations (the source does not guard
`chunk_size_words = 0`, where the loop never advances). -/

/-- One window-collecting pass of the `while start < len(words)` loop.
`words[start:end]` slices become `take`/`drop`; the advance is
`end - overlap` except that `overlap >= size` degenerates to `end`
(the source's `max(end - overlap_words, end)`). -/
def chunkGo (words : List String) (size olap : ℕ) : ℕ → ℕ → Option (List (List String))
  | fuel, start =>
    if start < words.length then
      match fuel with
      | 0 => none
      | fuel' + 1 =>
        let e := min words.length (start + size)
        let w := (words.drop start).take (e - start)
        if e = words.length then some [w]
        else
          match chunkGo words size olap fuel' (if size ≤ olap then e else e - olap) with
          | none => none
          | some rest => some (w :: rest)
    else some []

/-- The raw overlapping windows of the chunker (word-level slices,
before joining, the non-empty filter and de-duplication).  Fuel
`words.length + 1` is sufficient whenever `1 ≤ size`. -/
def chunkWindows (words : List String) (size olap : ℕ) : List (List String) :=
  (chunkGo words size olap (words.length + 1) 0).getD []

/-- `chunk_golden_rules`: normalize whitespace, split into words, slide
the overlapping window, join each window with single spaces, keep
non-empty chunks, then de-duplicate by exact string equality keeping
first occurrences.  (The source's default parameters are
`chunk_size_words = 260`, `overlap_words = 40`.) -/
def chunk_golden_rules (text : String) (chunk_size_words overlap_words : ℕ) : List String :=
  let words := pySplitWS text
  if words = [] then []
  else
    let windows := chunkWindows words chunk_size_words overlap_words
    let chunks := (windows.map fun w => pyStrip (joinSep " " w)).filter fun c => c ≠ ""
    dedupStringsAux [] chunks

/-- The effective overlap between consecutive windows: `overlap_words`,
degenerating to `0` (no overlap) when `overlap_words ≥ chunk_size_words`. -/
def effOverlap (size olap : ℕ) : ℕ :=
  if size ≤ olap then 0 else olap

/-- Append the windows after the first, dropping the `eff` overlap words
each shares with its predecessor. -/
def mergeRest (eff : ℕ) : List (List String) → List String
  | [] => []
  | w :: rest => w.drop eff ++ mergeRest eff rest

/-- Overlap-aware merge of a window list: the first window whole, every
later window minus its leading `eff` overlap words. -/
def mergeWindows (ws : List (List String)) (eff : ℕ) : List String :=
  match ws with
  | [] => []
  | w :: rest => w ++ mergeRest eff rest

/-! ## Data model (rule_storage.py lines 18-45, 93-104)

Vector entries are exact rationals (each float32 value is a rational);
similarity scores, which involve square roots, live in `ℝ`. -/

/-- The value of `DEFAULT_EMBEDDING_MODEL`. -/
def DEFAULT_EMBEDDING_MODEL : String := "text-embedding-3-small"

/-- The metadata dictionary of a chunk as the store uses it: a `tags`
entry and an optional transient `score` entry (absent = key not
present). -/
structure Metadata where
  tags : List String
  score : Option ℝ

/-- `RuleChunk`: a rule snippet with its embedding and metadata. -/
structure RuleChunk where
  text : String
  embedding : List ℚ
  metadata : Metadata

/-- The dictionary produced by `RuleChunk.to_dict` (keys `text`,
`embedding`, `metadata`), as persisted in the store's JSON file. -/
structure ChunkPayload where
  text : String
  embedding : List ℚ
  metadata : Metadata

/-- `RuleChunk.to_dict`. -/
def RuleChunk.to_dict (c : RuleChunk) : ChunkPayload :=
  { text := c.text, embedding := c.embedding, metadata := c.metadata }

/-- `RuleChunk.from_dict` (the payload always carries all three keys, so
the `payload.get` defaults never fire). -/
def RuleChunk.from_dict (p : ChunkPayload) : RuleChunk :=
  { text := p.text, embedding := p.embedding, metadata := p.metadata }

/-- The external OpenAI embeddings endpoint: a batch of texts to either
an exception or one vector per text. -/
def Client : Type := List String → Except String (List (List ℚ))

/-- `_embed_texts`: empty input short-circuits to `[]` without calling
the gateway; otherwise one batch call. -/
def _embed_texts (client : Client) (texts : List String) : Except String (List (List ℚ)) :=
  if texts = [] then .ok [] else client texts

/-- The observable behaviour of a built faiss index
(`normalize_L2` on the query followed by `index.search`, which returns
`top_k` `(score, index)` pairs, padding with index `-1`): an external
collaborator, abstracted as its search function. -/
def SearchFn : Type := List ℚ → ℕ → List (ℝ × ℤ)

/-- `RuleStore`: the orchestrating entity.  `index` is the optional
faiss index (`none` both when faiss is unavailable and before a build);
`_vectors` caches the numpy matrix of chunk embeddings.
(When faiss is present, `faiss.normalize_L2` renormalizes that cached
matrix in place; the brute-force path that reads `_vectors` is only
reachable when faiss is absent, so the model keeps the unnormalized
values.) -/
structure RuleStore where
  embedding_model : String
  index : Option SearchFn
  chunks : List RuleChunk
  _vectors : Option (List (List ℚ))

/-- `RuleStore.__init__`. -/
def RuleStore.init : RuleStore :=
  { embedding_model := DEFAULT_EMBEDDING_MODEL, index := none, chunks := [], _vectors := none }

/-- `RuleStore.is_ready`: `len(self.chunks) > 0`. -/
def RuleStore.is_ready (s : RuleStore) : Bool :=
  decide (0 < s.chunks.length)

/-! ## numpy semantics used by the query fallback path -/

/-- `ndarray.size` of a two-dimensional array given as its rows. -/
def npSize (m : List (List ℚ)) : ℕ :=
  (m.map List.length).sum

/-- `bool(ndarray)`: `False` for an empty array, the truth value of the
single element for a one-element array, and a `ValueError` otherwise.
This is what `x or y` evaluates on its left operand. -/
def npTruthy (m : List (List ℚ)) : Except String Bool :=
  if npSize m = 0 then .ok false
  else if npSize m = 1 then .ok (m.any fun row => row.any fun x => decide (x ≠ 0))
  else .error "ValueError: The truth value of an array with more than one element is ambiguous"

/-- Python `a or b` where `a` is an optional ndarray (`self._vectors or
np.array([...])`, rule_storage.py line 151): `None` is falsy, an ndarray
is asked for its truth value (which can raise), and `b` is used when `a`
is falsy. -/
def npOr (a : Option (List (List ℚ))) (b : List (List ℚ)) : Except String (List (List ℚ)) :=
  match a with
  | none => .ok b
  | some arr =>
    match npTruthy arr with
    | .error e => .error e
    | .ok true => .ok arr
    | .ok false => .ok b

/-! ## Brute-force cosine scoring (rule_storage.py lines 154-158)

Float arithmetic is idealized over `ℝ`; nothing below is proved about
these values, they are carried opaquely into chunk metadata. -/

/-- Dot product of two rational vectors, in `ℝ`. -/
def dotR (a b : List ℚ) : ℝ :=
  (((a.zip b).map fun p => p.1 * p.2).sum : ℚ)

/-- Euclidean norm of a rational vector (`np.linalg.norm`). -/
noncomputable def normR (v : List ℚ) : ℝ :=
  Real.sqrt (dotR v v)

-- Stable insertion into a descending-by-score list (ties keep the
-- earlier element first, matching Python's stable `sorted`).
open Classical in
noncomputable def insertByScore (x : ℝ × ℕ) : List (ℝ × ℕ) → List (ℝ × ℕ)
  | [] => [x]
  | y :: ys => if y.1 ≤ x.1 then x :: y :: ys else y :: insertByScore x ys

/-- Python `sorted(pairs, key=lambda x: x[0], reverse=True)`: stable
descending sort by score. -/
noncomputable def sortByScoreDesc : List (ℝ × ℕ) → List (ℝ × ℕ)
  | [] => []
  | x :: xs => insertByScore x (sortByScoreDesc xs)

/-- The brute-force scored candidate list: cosine similarity of the
query against every stored vector (`vectors @ q / max(norms, 1e-12)`),
enumerated, stably sorted by descending score and truncated to `top_k`. -/
noncomputable def bruteScored (vectors : List (List ℚ)) (query_vec : List ℚ) (top_k : ℕ) :
    List (ℝ × ℤ) :=
  let qnorm := normR query_vec
  let scores_raw := vectors.map fun v => dotR v query_vec / max (normR v * qnorm) ((1 : ℝ) / 10 ^ 12)
  let scored := scores_raw.enum.map fun p => (p.2, p.1)
  ((sortByScoreDesc scored).take top_k).map fun p => (p.1, (p.2 : ℤ))

/-! ## Query post-processing loop (rule_storage.py lines 160-175) -/

/-- Python list indexing `chunks[idx]` for a (possibly negative) index:
negative indices count from the end; out-of-range gives `none`
(an `IndexError` at the call site). -/
def pyListGet (chunks : List RuleChunk) (idx : ℤ) : Option RuleChunk :=
  if 0 ≤ idx then chunks.get? idx.toNat
  else if (-idx).toNat ≤ chunks.length then chunks.get? (chunks.length - (-idx).toNat)
  else none

/-- The `chunk_copy` built for each emitted candidate: same text and
embedding, metadata equal to the stored metadata with the `score` key
set (`{**chunk.metadata, "score": float(score)}`). -/
def scoredCopy (chunk : RuleChunk) (score : ℝ) : RuleChunk :=
  { text := chunk.text, embedding := chunk.embedding,
    metadata := { tags := chunk.metadata.tags, score := some score } }

/-- The `for score, idx in scored` loop: skip index `-1` and indices
beyond the corpus, apply the tag filter when `required_tags` is
non-empty, and emit a copy of each surviving chunk whose metadata is the
stored metadata with the `score` key set. -/
def selectTopChunks : List (ℝ × ℤ) → List RuleChunk → List String → Except String (List RuleChunk)
  | [], _, _ => .ok []
  | (score, idx) :: rest, chunks, required_tags =>
    if idx = -1 ∨ (chunks.length : ℤ) ≤ idx then
      selectTopChunks rest chunks required_tags
    else
      match pyListGet chunks idx with
      | none => .error "IndexError: list index out of range"
      | some chunk =>
        if required_tags ≠ [] ∧ ¬ ∃ t ∈ required_tags, t ∈ chunk.metadata.tags then
          selectTopChunks rest chunks required_tags
        else
          match selectTopChunks rest chunks required_tags with
          | .error e => .error e
          | .ok out => .ok (scoredCopy chunk score :: out)

/-! ## RuleStore.query (rule_storage.py lines 130-175) -/

/-- The query embedding: `_embed_texts(client, [query])[0]` inside
`try/except` — both a gateway exception and a missing first element are
caught and signalled as `none`. -/
def queryVec (client : Client) (q : String) : Option (List ℚ) :=
  match _embed_texts client [q] with
  | .error _ => none
  | .ok embs => embs.head?

/-- The value computed (or exception raised) by `RuleStore.query`. -/
noncomputable def RuleStore.queryResult (store : RuleStore) (client : Client) (q : String)
    (top_k : ℕ) (required_tags : List String) : Except String (List RuleChunk) :=
  if store.is_ready = false then .ok []
  else
    match queryVec client q with
    | none => .ok []
    | some query_vec =>
      match store.index with
      | some search => selectTopChunks (search query_vec top_k) store.chunks required_tags
      | none =>
        match npOr store._vectors (store.chunks.map fun c => c.embedding) with
        | .error e => .error e
        | .ok vectors =>
          if npSize vectors = 0 then .ok []
          else selectTopChunks (bruteScored vectors query_vec top_k) store.chunks required_tags

/-- `RuleStore.query` in state-passing form: the method assigns no
attribute of `self`, so the post-state is the receiver unchanged and the
second component is the returned list or the propagated exception. -/
noncomputable def RuleStore.query (store : RuleStore) (client : Client) (q : String)
    (top_k : ℕ) (required_tags : List String) : RuleStore × Except String (List RuleChunk) :=
  (store, store.queryResult client q top_k required_tags)

/-! ## RuleStore.build (rule_storage.py lines 106-128) -/

/-- The faiss library, when importable, abstracted as the construction
of a flat inner-product index over (L2-normalized) vectors. -/
def FaissLib : Type := List (List ℚ) → SearchFn

/-- `RuleStore.build` in state-passing form.  An embedding-gateway
exception propagates out of the method before any attribute of `self`
has been assigned, so the post-state is then the unchanged receiver. -/
def RuleStore.build (store : RuleStore) (faissLib : Option FaissLib) (client : Client)
    (raw_text : String) (tags : List String) : RuleStore × Except String (List RuleChunk) :=
  let chunk_texts := chunk_golden_rules raw_text 260 40
  if chunk_texts = [] then
    ({ store with index := none, chunks := [] }, .ok [])
  else
    match _embed_texts client chunk_texts with
    | .error e => (store, .error e)
    | .ok embeddings =>
      let vectors := embeddings
      let store := { store with _vectors := some vectors }
      let store :=
        match faissLib with
        | some lib => { store with index := some (lib vectors) }
        | none => { store with index := none }
      let newChunks := (chunk_texts.zip embeddings).map fun p =>
        { text := p.1, embedding := p.2,
          metadata := { tags := sortStrings (dedupStringsAux [] (tags ++ _guess_tags_from_text p.1)),
                        score := none } : RuleChunk }
      ({ store with chunks := newChunks }, .ok newChunks)

/-! ## Persistence (rule_storage.py lines 177-203)

The filesystem under one path prefix is modelled as the two optional
artifacts the store writes: the faiss index file and the JSON metadata
file. -/

/-- The two artifacts saved under a path prefix. -/
structure SavedFiles where
  faissFile : Option SearchFn
  jsonFile : Option (List ChunkPayload)

/-- A path prefix at which nothing has been saved yet. -/
def SavedFiles.empty : SavedFiles :=
  { faissFile := none, jsonFile := none }

/-- `RuleStore.save`: a no-op when the store is not ready; otherwise
write the faiss artifact (when an index exists) and the JSON list of
chunk dictionaries. -/
def RuleStore.save (store : RuleStore) (fs : SavedFiles) : SavedFiles :=
  if store.is_ready = false then fs
  else
    let fs1 :=
      match store.index with
      | some ix => { fs with faissFile := some ix }
      | none => fs
    { fs1 with jsonFile := some (store.chunks.map RuleChunk.to_dict) }

/-- `RuleStore.load`: a fresh store when no JSON artifact exists;
otherwise restore the chunks from the payload, the index from the faiss
artifact when present, and recompute the cached vector matrix. -/
def RuleStore.load (fs : SavedFiles) : RuleStore :=
  let store := RuleStore.init
  match fs.jsonFile with
  | none => store
  | some payload =>
    let store :=
      match fs.faissFile with
      | some ix => { store with index := some ix }
      | none => store
    let chunks := payload.map RuleChunk.from_dict
    { store with chunks := chunks, _vectors := some (chunks.map fun c => c.embedding) }

/-! ## Static-rule formatter (`_format_rule_block`, prompt_builder.py
lines 18-42) -/

/-- The inner de-duplication loop over one category's rules: strip each
rule, skip empties and case-insensitive repeats (`seen` holds the
lowercased normalized strings already kept). -/
def dedupRulesAux : List String → List String → List String
  | _, [] => []
  | seen, r :: rest =>
    if pyStrip r = "" ∨ pyLower (pyStrip r) ∈ seen then dedupRulesAux seen rest
    else pyStrip r :: dedupRulesAux (pyLower (pyStrip r) :: seen) rest

/-- The rendered sections of the static-rule block: empty categories and
categories whose rules all de-duplicate away are skipped; a surviving
category renders as its title-cased name and one `- rule` line per kept
rule. -/
def sectionsOf : List (String × List String) → List String
  | [] => []
  | (sectionName, rules) :: rest =>
    if rules = [] then sectionsOf rest
    else
      if dedupRulesAux [] rules = [] then sectionsOf rest
      else
        (pyTitle sectionName ++ "\n" ++
            joinSep "\n" ((dedupRulesAux [] rules).map fun r => "- " ++ r)) ::
          sectionsOf rest

/-- `_format_rule_block`: the fallback sentence for an empty mapping,
otherwise the surviving sections joined by blank lines (the empty string
when every section is skipped). -/
def _format_rule_block (static_rules : List (String × List String)) : String :=
  if static_rules = [] then "No static rules available."
  else joinSep "\n\n" (sectionsOf static_rules)

/-! ## Concrete stores, clients and index functions used to instantiate
the theorems below on executable inputs -/

/-- A chunk as `build` creates it from the text "alpha". -/
def demoChunkA : RuleChunk :=
  { text := "alpha", embedding := [1, 0], metadata := { tags := ["general"], score := none } }

/-- A chunk as `build` creates it from the text "beta". -/
def demoChunkB : RuleChunk :=
  { text := "beta", embedding := [0, 1], metadata := { tags := ["general"], score := none } }

/-- A chunk carrying the "seo" tag. -/
def demoChunkSeo : RuleChunk :=
  { text := "Optimize for search intent", embedding := [1, 0],
    metadata := { tags := ["seo"], score := none } }

/-- A chunk carrying the "tone" tag. -/
def demoChunkTone : RuleChunk :=
  { text := "Warm voice", embedding := [0, 1],
    metadata := { tags := ["tone"], score := none } }

/-- A gateway that answers every text with the vector `[1, 0]`. -/
def demoClient : Client := fun ts => .ok (ts.map fun _ => [1, 0])

/-- A gateway whose call raises. -/
def failingClient : Client := fun _ => .error "APIConnectionError"

/-- A two-chunk store built while faiss was unavailable: `index` is
`None` and `_vectors` caches the 2×2 embedding matrix, exactly the state
`build` leaves behind. -/
def noFaissStore : RuleStore :=
  { embedding_model := DEFAULT_EMBEDDING_MODEL, index := none,
    chunks := [demoChunkA, demoChunkB], _vectors := some [[1, 0], [0, 1]] }

/-- A deterministic faiss index behaviour: the first chunk scores 2, the
second scores 1. -/
def demoSearch : SearchFn := fun _ _ => [((2 : ℝ), (0 : ℤ)), ((1 : ℝ), (1 : ℤ))]

/-- A ready store whose optimized index is present. -/
def faissStore : RuleStore :=
  { embedding_model := DEFAULT_EMBEDDING_MODEL, index := some demoSearch,
    chunks := [demoChunkSeo, demoChunkTone], _vectors := some [[1, 0], [0, 1]] }

/-- The copy of `demoChunkSeo` that a query returns with score 2. -/
def demoChunkSeoScored : RuleChunk :=
  { text := "Optimize for search intent", embedding := [1, 0],
    metadata := { tags := ["seo"], score := some (2 : ℝ) } }

/-- The copy of `demoChunkTone` that a query returns with score 1. -/
def demoChunkToneScored : RuleChunk :=
  { text := "Warm voice", embedding := [0, 1],
    metadata := { tags := ["tone"], score := some (1 : ℝ) } }

/-! ## Chunker lemmas -/

/-- With a positive window size, fuel `words.length - start` iterations
(plus one) is enough for the window loop: it always answers `some`. -/
lemma chunkGo_total (words : List String) (size olap : ℕ) (hsize : 1 ≤ size) :
    ∀ fuel start, words.length ≤ fuel + start →
      ∃ ws, chunkGo words size olap fuel start = some ws := by
  intro fuel
  induction fuel with
  | zero =>
    intro start h
    rw [chunkGo]
    rw [if_neg (by omega)]
    exact ⟨[], rfl⟩
  | succ n ih =>
    intro start h
    rw [chunkGo]
    by_cases hs : start < words.length
    · rw [if_pos hs]
      by_cases he : min words.length (start + size) = words.length
      · rw [if_pos he]
        exact ⟨_, rfl⟩
      · rw [if_neg he]
        have hlt : start + size < words.length := by
          by_contra hc
          push_neg at hc
          exact he (min_eq_left hc)
        by_cases hol : size ≤ olap
        · obtain ⟨ws, hws⟩ := ih (if size ≤ olap then min words.length (start + size) else
            min words.length (start + size) - olap) (by rw [if_pos hol]; omega)
          rw [hws]
          exact ⟨_, rfl⟩
        · obtain ⟨ws, hws⟩ := ih (if size ≤ olap then min words.length (start + size) else
            min words.length (start + size) - olap) (by rw [if_neg hol]; omega)
          rw [hws]
          exact ⟨_, rfl⟩
    · rw [if_neg hs]
      exact ⟨[], rfl⟩

/-- The effective overlap never exceeds the window size. -/
lemma effOverlap_le (size olap : ℕ) : effOverlap size olap ≤ size := by
  unfold effOverlap
  split <;> omega

/-- Every window list the loop produces, stripped of the leading
overlap of each window, concatenates to the corpus tail from
`start + effOverlap`. -/
lemma chunkGo_mergeRest (words : List String) (size olap : ℕ) :
    ∀ fuel start ws, chunkGo words size olap fuel start = some ws →
      mergeRest (effOverlap size olap) ws = words.drop (start + effOverlap size olap) := by
  intro fuel
  induction fuel with
  | zero =>
    intro start ws h
    rw [chunkGo] at h
    by_cases hs : start < words.length
    · rw [if_pos hs] at h
      exact absurd h (by simp)
    · rw [if_neg hs] at h
      cases h
      rw [mergeRest, List.drop_eq_nil_of_le (by omega)]
  | succ n ih =>
    intro start ws h
    rw [chunkGo] at h
    by_cases hs : start < words.length
    · rw [if_pos hs] at h
      by_cases he : min words.length (start + size) = words.length
      · rw [if_pos he] at h
        cases h
        rw [mergeRest, mergeRest, List.append_nil]
        have hw : (words.drop start).take (min words.length (start + size) - start) =
            words.drop start := by
          rw [he, ← List.length_drop, List.take_length]
        rw [hw, List.drop_drop]
      · rw [if_neg he] at h
        have hlt : start + size < words.length := by
          by_contra hc
          push_neg at hc
          exact he (min_eq_left hc)
        have hmin : min words.length (start + size) = start + size := by omega
        rw [hmin] at h
        cases hrec : chunkGo words size olap n (if size ≤ olap then start + size
            else start + size - olap) with
        | none => rw [hrec] at h; exact absurd h (by simp)
        | some rest' =>
          rw [hrec] at h
          cases h
          have ihr := ih _ _ hrec
          rw [mergeRest, ihr]
          have heff : (if size ≤ olap then start + size else start + size - olap) +
              effOverlap size olap = start + size := by
            unfold effOverlap
            split <;> omega
          rw [heff]
          have hws : ((words.drop start).take (start + size - start)).drop
              (effOverlap size olap) =
              (words.drop (start + effOverlap size olap)).take (size - effOverlap size olap) := by
            rw [List.drop_take, List.drop_drop]
            congr 1
            omega
          rw [hws]
          have hdrop : words.drop (start + size) =
              (words.drop (start + effOverlap size olap)).drop (size - effOverlap size olap) := by
            rw [List.drop_drop]
            congr 1
            have := effOverlap_le size olap
            omega
          rw [hdrop, List.take_append_drop]
    · rw [if_neg hs] at h
      cases h
      rw [mergeRest, List.drop_eq_nil_of_le (by omega)]

/-- Any window list the loop answers from position `start` merges back
to exactly the corpus tail from `start`. -/
lemma chunkGo_mergeWindows (words : List String) (size olap : ℕ) :
    ∀ fuel start ws, chunkGo words size olap fuel start = some ws →
      mergeWindows ws (effOverlap size olap) = words.drop start := by
  intro fuel start ws h
  cases fuel with
  | zero =>
    rw [chunkGo] at h
    by_cases hs : start < words.length
    · rw [if_pos hs] at h
      exact absurd h (by simp)
    · rw [if_neg hs] at h
      cases h
      rw [mergeWindows, List.drop_eq_nil_of_le (by omega)]
  | succ n =>
    rw [chunkGo] at h
    by_cases hs : start < words.length
    · rw [if_pos hs] at h
      by_cases he : min words.length (start + size) = words.length
      · rw [if_pos he] at h
        cases h
        rw [mergeWindows, mergeRest, List.append_nil]
        rw [he, ← List.length_drop, List.take_length]
      · rw [if_neg he] at h
        have hlt : start + size < words.length := by
          by_contra hc
          push_neg at hc
          exact he (min_eq_left hc)
        have hmin : min words.length (start + size) = start + size := by omega
        rw [hmin] at h
        cases hrec : chunkGo words size olap n (if size ≤ olap then start + size
            else start + size - olap) with
        | none => rw [hrec] at h; exact absurd h (by simp)
        | some rest' =>
          rw [hrec] at h
          cases h
          have ihr := chunkGo_mergeRest words size olap n _ _ hrec
          rw [mergeWindows, ihr]
          have heff : (if size ≤ olap then start + size else start + size - olap) +
              effOverlap size olap = start + size := by
            unfold effOverlap
            split <;> omega
          rw [heff]
          have hdrop : words.drop (start + size) = (words.drop start).drop size := by
            rw [List.drop_drop]
          rw [hdrop]
          have hws : (words.drop start).take (start + size - start) =
              (words.drop start).take size := by
            congr 1
            omega
          rw [hws, List.take_append_drop]
    · rw [if_neg hs] at h
      cases h
      rw [mergeWindows, List.drop_eq_nil_of_le (by omega)]

/-- When the overlap is at least the window size, the advance
degenerates to the window size: the loop behaves exactly as with
overlap `0`. -/
lemma chunkGo_degenerate (words : List String) (size olap : ℕ) (hsize : 1 ≤ size)
    (hol : size ≤ olap) :
    ∀ fuel start, chunkGo words size olap fuel start = chunkGo words size 0 fuel start := by
  intro fuel
  induction fuel with
  | zero =>
    intro start
    rw [chunkGo, chunkGo]
  | succ n ih =>
    intro start
    rw [chunkGo]
    conv_rhs => rw [chunkGo]
    by_cases hs : start < words.length
    · rw [if_pos hs, if_pos hs]
      by_cases he : min words.length (start + size) = words.length
      · rw [if_pos he, if_pos he]
      · rw [if_neg he, if_neg he]
        rw [if_pos hol, if_neg (by omega)]
        rw [Nat.sub_zero, ih]
    · rw [if_neg hs, if_neg hs]

/-! ## Claims C6 and C7: chunk coverage and chunker termination -/

/-- Claim C6 (counterexample): `chunk_golden_rules` de-duplicates equal
window strings, so on the input "a a a" with `chunk_size_words = 2`,
`overlap_words = 1` the emitted chunk list is `["a a"]` and its
overlap-aware merge has two words, not the three words of the
normalized input: the claimed exact recovery of the word sequence
fails. -/
theorem c6_coverage_counterexample :
    ¬ mergeWindows ((chunk_golden_rules "a a a" 2 1).map pySplitWS) (effOverlap 2 1) =
      pySplitWS "a a a" := by
  decide

/-- Claim C6 (amended): for every input text and parameters with
`chunk_size_words ≥ 1`, the overlapping windows the chunker computes
(before the final exact-string de-duplication step) merge back to
exactly the whitespace-normalized word sequence of the input, in order;
the de-duplication step may additionally drop a window that repeats an
earlier one verbatim, losing repeated regions of highly repetitive
input. -/
theorem c6_window_coverage (text : String) (chunk_size_words overlap_words : ℕ)
    (hsize : 1 ≤ chunk_size_words) :
    mergeWindows (chunkWindows (pySplitWS text) chunk_size_words overlap_words)
      (effOverlap chunk_size_words overlap_words) = pySplitWS text := by
  obtain ⟨ws, hws⟩ := chunkGo_total (pySplitWS text) chunk_size_words overlap_words hsize
    ((pySplitWS text).length + 1) 0 (by omega)
  rw [chunkWindows, hws, Option.getD_some]
  have := chunkGo_mergeWindows (pySplitWS text) chunk_size_words overlap_words
    ((pySplitWS text).length + 1) 0 ws hws
  rw [this, List.drop_zero]

/-- Witness for C6 (amended) at a concrete input. -/
theorem c6_window_coverage_witness :
    mergeWindows (chunkWindows (pySplitWS "hello brave new world") 2 1) (effOverlap 2 1) =
      pySplitWS "hello brave new world" :=
  c6_window_coverage "hello brave new world" 2 1 (by decide)

/-- Claim C7: with `chunk_size_words ≥ 1` the chunker's window loop
terminates on every input (fuel `words + 1` always suffices, i.e. the
fuelled model never answers `none`), and in the edge case
`overlap_words ≥ chunk_size_words` the start advances by exactly
`chunk_size_words` per step — the loop computes exactly what it computes
with overlap `0`. -/
theorem c7_chunker_terminates (text : String) (chunk_size_words overlap_words : ℕ)
    (hsize : 1 ≤ chunk_size_words) :
    (chunkGo (pySplitWS text) chunk_size_words overlap_words
        ((pySplitWS text).length + 1) 0).isSome = true ∧
    (chunk_size_words ≤ overlap_words →
      ∀ fuel start, chunkGo (pySplitWS text) chunk_size_words overlap_words fuel start =
        chunkGo (pySplitWS text) chunk_size_words 0 fuel start) := by
  constructor
  · obtain ⟨ws, hws⟩ := chunkGo_total (pySplitWS text) chunk_size_words overlap_words hsize
      ((pySplitWS text).length + 1) 0 (by omega)
    rw [hws]
    rfl
  · intro hol fuel start
    exact chunkGo_degenerate (pySplitWS text) chunk_size_words overlap_words hsize hol fuel start

/-- Witness for C7 at a concrete input with overlap exceeding the
window size. -/
theorem c7_chunker_terminates_witness :
    (chunkGo (pySplitWS "a b c") 1 3 ((pySplitWS "a b c").length + 1) 0).isSome = true ∧
    chunkGo (pySplitWS "a b c") 1 3 7 0 = chunkGo (pySplitWS "a b c") 1 0 7 0 := by
  have h := c7_chunker_terminates "a b c" 1 3 (by decide)
  exact ⟨h.1, h.2 (by decide) 7 0⟩

/-! ## Lemmas about the query selection loop -/

/-- A successful Python list access returns an element of the list,
identified by its position. -/
lemma pyListGet_eq_get (chunks : List RuleChunk) (idx : ℤ) (c : RuleChunk)
    (h : pyListGet chunks idx = some c) :
    ∃ i, ∃ hi : i < chunks.length, chunks.get ⟨i, hi⟩ = c := by
  unfold pyListGet at h
  split at h
  · rcases List.get?_eq_some.mp h with ⟨hi, hg⟩
    exact ⟨_, hi, hg⟩
  · split at h
    · rcases List.get?_eq_some.mp h with ⟨hi, hg⟩
      exact ⟨_, hi, hg⟩
    · exact absurd h (by simp)

/-- A successful Python list access returns a member of the list. -/
lemma pyListGet_mem (chunks : List RuleChunk) (idx : ℤ) (c : RuleChunk)
    (h : pyListGet chunks idx = some c) : c ∈ chunks := by
  obtain ⟨i, hi, hg⟩ := pyListGet_eq_get chunks idx c h
  exact hg ▸ List.get_mem chunks i hi

/-- Every chunk the selection loop emits is the scored copy of a stored
chunk. -/
lemma selectTopChunks_mem_copy :
    ∀ (scored : List (ℝ × ℤ)) (chunks : List RuleChunk) (rt : List String)
      (res : List RuleChunk), selectTopChunks scored chunks rt = .ok res →
      ∀ c ∈ res, ∃ i, ∃ hi : i < chunks.length, ∃ s : ℝ,
        c = scoredCopy (chunks.get ⟨i, hi⟩) s := by
  intro scored
  induction scored with
  | nil =>
    intro chunks rt res h c hc
    rw [selectTopChunks] at h
    cases h
    cases hc
  | cons p rest ih =>
    obtain ⟨s, idx⟩ := p
    intro chunks rt res h c hc
    rw [selectTopChunks] at h
    by_cases hguard : idx = -1 ∨ (chunks.length : ℤ) ≤ idx
    · rw [if_pos hguard] at h
      exact ih chunks rt res h c hc
    · rw [if_neg hguard] at h
      cases hget : pyListGet chunks idx with
      | none => simp only [hget] at h; cases h
      | some chunk =>
        simp only [hget] at h
        by_cases hcond : rt ≠ [] ∧ ¬ ∃ t ∈ rt, t ∈ chunk.metadata.tags
        · rw [if_pos hcond] at h
          exact ih chunks rt res h c hc
        · rw [if_neg hcond] at h
          cases hsel : selectTopChunks rest chunks rt with
          | error e => simp only [hsel] at h; cases h
          | ok out =>
            simp only [hsel, Except.ok.injEq] at h
            subst h
            rcases List.mem_cons.mp hc with hc | hc
            · obtain ⟨i, hi, hg⟩ := pyListGet_eq_get chunks idx chunk hget
              exact ⟨i, hi, s, by rw [hg]; exact hc⟩
            · exact ih chunks rt out hsel c hc

/-- When a non-empty tag filter is active, every chunk the selection
loop emits carries one of the required tags. -/
lemma selectTopChunks_tags :
    ∀ (scored : List (ℝ × ℤ)) (chunks : List RuleChunk) (rt : List String)
      (res : List RuleChunk), selectTopChunks scored chunks rt = .ok res → rt ≠ [] →
      ∀ c ∈ res, ∃ t ∈ rt, t ∈ c.metadata.tags := by
  intro scored
  induction scored with
  | nil =>
    intro chunks rt res h hrt c hc
    rw [selectTopChunks] at h
    cases h
    cases hc
  | cons p rest ih =>
    obtain ⟨s, idx⟩ := p
    intro chunks rt res h hrt c hc
    rw [selectTopChunks] at h
    by_cases hguard : idx = -1 ∨ (chunks.length : ℤ) ≤ idx
    · rw [if_pos hguard] at h
      exact ih chunks rt res h hrt c hc
    · rw [if_neg hguard] at h
      cases hget : pyListGet chunks idx with
      | none => simp only [hget] at h; cases h
      | some chunk =>
        simp only [hget] at h
        by_cases hcond : rt ≠ [] ∧ ¬ ∃ t ∈ rt, t ∈ chunk.metadata.tags
        · rw [if_pos hcond] at h
          exact ih chunks rt res h hrt c hc
        · rw [if_neg hcond] at h
          cases hsel : selectTopChunks rest chunks rt with
          | error e => simp only [hsel] at h; cases h
          | ok out =>
            simp only [hsel, Except.ok.injEq] at h
            subst h
            rcases List.mem_cons.mp hc with hc | hc
            · subst hc
              push_neg at hcond
              exact hcond hrt
            · exact ih chunks rt out hsel hrt c hc

/-- Filtered candidates are dropped, never replaced: the filtered
result is a sublist of the unfiltered one over the same scored list. -/
lemma selectTopChunks_sublist :
    ∀ (scored : List (ℝ × ℤ)) (chunks : List RuleChunk) (rt : List String)
      (res base : List RuleChunk), selectTopChunks scored chunks rt = .ok res →
      selectTopChunks scored chunks [] = .ok base → res.Sublist base := by
  intro scored
  induction scored with
  | nil =>
    intro chunks rt res base h1 h2
    rw [selectTopChunks] at h1 h2
    cases h1
    cases h2
    exact List.Sublist.refl []
  | cons p rest ih =>
    obtain ⟨s, idx⟩ := p
    intro chunks rt res base h1 h2
    rw [selectTopChunks] at h1 h2
    by_cases hguard : idx = -1 ∨ (chunks.length : ℤ) ≤ idx
    · rw [if_pos hguard] at h1 h2
      exact ih chunks rt res base h1 h2
    · rw [if_neg hguard] at h1 h2
      cases hget : pyListGet chunks idx with
      | none => simp only [hget] at h1; cases h1
      | some chunk =>
        simp only [hget] at h1 h2
        rw [if_neg (by simp)] at h2
        cases hsel2 : selectTopChunks rest chunks [] with
        | error e => simp only [hsel2] at h2; cases h2
        | ok out2 =>
          simp only [hsel2, Except.ok.injEq] at h2
          subst h2
          by_cases hcond : rt ≠ [] ∧ ¬ ∃ t ∈ rt, t ∈ chunk.metadata.tags
          · rw [if_pos hcond] at h1
            exact List.Sublist.cons _ (ih chunks rt res out2 h1 hsel2)
          · rw [if_neg hcond] at h1
            cases hsel1 : selectTopChunks rest chunks rt with
            | error e => simp only [hsel1] at h1; cases h1
            | ok out1 =>
              simp only [hsel1, Except.ok.injEq] at h1
              subst h1
              exact List.Sublist.cons₂ _ (ih chunks rt out1 out2 hsel1 hsel2)

/-- When no stored chunk carries any required tag, the selection loop
emits nothing. -/
lemma selectTopChunks_no_tag_empty :
    ∀ (scored : List (ℝ × ℤ)) (chunks : List RuleChunk) (rt : List String)
      (res : List RuleChunk), selectTopChunks scored chunks rt = .ok res → rt ≠ [] →
      (∀ ch ∈ chunks, ∀ t ∈ rt, t ∉ ch.metadata.tags) → res = [] := by
  intro scored
  induction scored with
  | nil =>
    intro chunks rt res h hrt hno
    rw [selectTopChunks] at h
    cases h
    rfl
  | cons p rest ih =>
    obtain ⟨s, idx⟩ := p
    intro chunks rt res h hrt hno
    rw [selectTopChunks] at h
    by_cases hguard : idx = -1 ∨ (chunks.length : ℤ) ≤ idx
    · rw [if_pos hguard] at h
      exact ih chunks rt res h hrt hno
    · rw [if_neg hguard] at h
      cases hget : pyListGet chunks idx with
      | none => simp only [hget] at h; cases h
      | some chunk =>
        simp only [hget] at h
        by_cases hcond : rt ≠ [] ∧ ¬ ∃ t ∈ rt, t ∈ chunk.metadata.tags
        · rw [if_pos hcond] at h
          exact ih chunks rt res h hrt hno
        · exfalso
          push_neg at hcond
          obtain ⟨t, ht, htags⟩ := hcond hrt
          exact hno chunk (pyListGet_mem chunks idx chunk hget) t ht htags

/-- The result of `queryResult` is, uniformly in the tag filter: an
early empty list, a propagated exception, or the selection loop run on
one scored candidate list determined before filtering. -/
lemma queryResult_shape (store : RuleStore) (client : Client) (q : String) (k : ℕ) :
    (∀ rt, store.queryResult client q k rt = .ok []) ∨
    (∃ e, ∀ rt, store.queryResult client q k rt = .error e) ∨
    (∃ scored, ∀ rt, store.queryResult client q k rt =
      selectTopChunks scored store.chunks rt) := by
  by_cases hr : store.is_ready = false
  · left
    intro rt
    simp only [RuleStore.queryResult, hr, if_true]
  · cases hqv : queryVec client q with
    | none =>
      left
      intro rt
      simp [RuleStore.queryResult, hr, hqv]
    | some qv =>
      cases hix : store.index with
      | some search =>
        right; right
        exact ⟨search qv k, fun rt => by
          simp [RuleStore.queryResult, hr, hqv, hix]⟩
      | none =>
        cases hnp : npOr store._vectors (store.chunks.map fun c => c.embedding) with
        | error e =>
          right; left
          exact ⟨e, fun rt => by
            simp [RuleStore.queryResult, hr, hqv, hix, hnp]⟩
        | ok vectors =>
          by_cases hsz : npSize vectors = 0
          · left
            intro rt
            simp [RuleStore.queryResult, hr, hqv, hix, hnp, hsz]
          · right; right
            refine ⟨bruteScored vectors qv k, fun rt => ?_⟩
            simp [RuleStore.queryResult, hr, hqv, hix, hnp, hsz]

/-! ## Claims C1-C5, C8: query, build and persistence -/

/-- Claim C1 (code evaluation at the failing input): on the brute-force
fallback path (no faiss index) with a ready two-chunk store and a
successful query embedding, `RuleStore.query` raises a `ValueError`
instead of returning ranked chunks — `self._vectors or np.array(...)`
asks numpy for the truth value of the cached multi-element vector
matrix, which is what `bool(ndarray)` raises on. -/
theorem c1_brute_force_value_error :
    (RuleStore.query noFaissStore demoClient "medical page tone" 5 []).2 =
      .error "ValueError: The truth value of an array with more than one element is ambiguous" :=
  rfl

/-- Claim C2: if the embedding gateway call inside `RuleStore.build`
raises, the exception propagates before any attribute of the store has
been assigned, so the post-state equals the pre-state (previous corpus,
index and readiness untouched). -/
theorem c2_build_unchanged_on_embed_error (store : RuleStore) (faissLib : Option FaissLib)
    (client : Client) (raw_text : String) (tags : List String) (e : String)
    (h : (RuleStore.build store faissLib client raw_text tags).2 = .error e) :
    (RuleStore.build store faissLib client raw_text tags).1 = store := by
  unfold RuleStore.build at h ⊢
  by_cases hc : chunk_golden_rules raw_text 260 40 = []
  · rw [if_pos hc] at h
    simp at h
  · rw [if_neg hc] at h ⊢
    cases hemb : _embed_texts client (chunk_golden_rules raw_text 260 40) with
    | error e2 => simp [hemb]
    | ok embeddings => simp [hemb] at h

/-- Witness for C2: a failing gateway call leaves a concrete one-chunk
store exactly as it was. -/
theorem c2_build_unchanged_on_embed_error_witness :
    (RuleStore.build noFaissStore none failingClient "alpha beta" []).1 = noFaissStore :=
  c2_build_unchanged_on_embed_error noFaissStore none failingClient "alpha beta" []
    "APIConnectionError" rfl

/-- `from_dict` inverts `to_dict` (structure eta). -/
lemma from_dict_to_dict (c : RuleChunk) : RuleChunk.from_dict c.to_dict = c := rfl

/-- `from_dict` inverts `to_dict` chunk by chunk. -/
lemma map_from_dict_to_dict (l : List RuleChunk) :
    (l.map RuleChunk.to_dict).map RuleChunk.from_dict = l := by
  induction l with
  | nil => rfl
  | cons c cs ih =>
    simp only [List.map_cons, ih]
    rfl

/-- Claim C3: for every store (any number of chunks, zero included),
`save` to a fresh path prefix followed by `load` from it restores a
store with the same number of chunks, equal chunk by chunk — texts,
embeddings and metadata — in the same order. -/
theorem c3_save_load_round_trip (store : RuleStore) :
    (RuleStore.load (RuleStore.save store SavedFiles.empty)).chunks.length =
        store.chunks.length ∧
    (RuleStore.load (RuleStore.save store SavedFiles.empty)).chunks = store.chunks := by
  obtain ⟨em, ix, chunks, vecs⟩ := store
  cases chunks with
  | nil =>
    cases ix <;> exact ⟨rfl, rfl⟩
  | cons c cs =>
    have h2 : (RuleStore.load (RuleStore.save ⟨em, ix, c :: cs, vecs⟩ SavedFiles.empty)).chunks =
        c :: cs := by
      cases ix <;>
        · simp [RuleStore.save, RuleStore.load, RuleStore.is_ready, from_dict_to_dict,
            Function.comp]
          rw [← List.map_map]
          exact map_from_dict_to_dict cs
    exact ⟨by rw [h2], h2⟩

/-- Claim C4: with a non-empty `required_tags`, every chunk a
successful query returns carries at least one required tag; the result
is a sublist of what the same query returns unfiltered (dropped, never
replaced); and when no stored chunk carries any required tag the result
is empty regardless of `top_k`. -/
theorem c4_tag_filter_correct (store : RuleStore) (client : Client) (q : String) (k : ℕ)
    (rt : List String) (res : List RuleChunk) (hrt : rt ≠ [])
    (hres : (RuleStore.query store client q k rt).2 = .ok res) :
    (∀ c ∈ res, ∃ t ∈ rt, t ∈ c.metadata.tags) ∧
    (∀ base, (RuleStore.query store client q k []).2 = .ok base → res.Sublist base) ∧
    ((∀ ch ∈ store.chunks, ∀ t ∈ rt, t ∉ ch.metadata.tags) → res = []) := by
  have hres' : store.queryResult client q k rt = .ok res := hres
  rcases queryResult_shape store client q k with hsh | ⟨e, hsh⟩ | ⟨scored, hsh⟩
  · rw [hsh rt] at hres'
    simp only [Except.ok.injEq] at hres'
    subst hres'
    exact ⟨fun c hc => absurd hc (by simp), fun base hb => List.nil_sublist base, fun _ => rfl⟩
  · rw [hsh rt] at hres'
    cases hres'
  · rw [hsh rt] at hres'
    refine ⟨selectTopChunks_tags scored store.chunks rt res hres' hrt, ?_,
      fun hno => selectTopChunks_no_tag_empty scored store.chunks rt res hres' hrt hno⟩
    intro base hb
    have hb' : store.queryResult client q k [] = .ok base := hb
    rw [hsh []] at hb'
    exact selectTopChunks_sublist scored store.chunks rt res base hres' hb'

/-- Witness for C4 on a concrete two-chunk store: filtering on "seo"
keeps exactly the seo-tagged copy. -/
theorem c4_tag_filter_correct_witness :
    (∀ c ∈ [demoChunkSeoScored], ∃ t ∈ ["seo"], t ∈ c.metadata.tags) ∧
    (∀ base, (RuleStore.query faissStore demoClient "q" 2 []).2 = .ok base →
      List.Sublist [demoChunkSeoScored] base) ∧
    ((∀ ch ∈ faissStore.chunks, ∀ t ∈ ["seo"], t ∉ ch.metadata.tags) →
      [demoChunkSeoScored] = []) :=
  c4_tag_filter_correct faissStore demoClient "q" 2 ["seo"] [demoChunkSeoScored]
    (by simp) rfl

/-- Claim C5: whatever the store (ready or not), when the query-time
embedding call raises, `query` swallows the exception and returns the
empty list, and the store state is untouched. -/
theorem c5_query_embed_error_degrades (store : RuleStore) (client : Client) (q : String)
    (k : ℕ) (rt : List String) (e : String) (h : _embed_texts client [q] = .error e) :
    RuleStore.query store client q k rt = (store, .ok []) := by
  have hqv : queryVec client q = none := by
    rw [queryVec, h]
  unfold RuleStore.query RuleStore.queryResult
  by_cases hr : store.is_ready = false
  · rw [if_pos hr]
  · rw [if_neg hr, hqv]

/-- Witness for C5: a ready store queried through a failing gateway
answers the empty list. -/
theorem c5_query_embed_error_degrades_witness :
    RuleStore.query noFaissStore failingClient "medical page" 5 ["seo"] =
      (noFaissStore, .ok []) :=
  c5_query_embed_error_degrades noFaissStore failingClient "medical page" 5 ["seo"]
    "APIConnectionError" rfl

/-- Claim C8: `query` never mutates the stored corpus (the post-state
is the pre-state, so no `score` key is added to any stored metadata),
and every chunk of a successful result is a copy of some stored chunk
whose metadata is the stored metadata augmented with this query's
numeric score. -/
theorem c8_query_copy_on_query (store : RuleStore) (client : Client) (q : String) (k : ℕ)
    (rt : List String) :
    (RuleStore.query store client q k rt).1 = store ∧
    ∀ res, (RuleStore.query store client q k rt).2 = .ok res →
      ∀ c ∈ res, ∃ i, ∃ hi : i < store.chunks.length, ∃ s : ℝ,
        c = scoredCopy (store.chunks.get ⟨i, hi⟩) s := by
  refine ⟨rfl, ?_⟩
  intro res hres c hc
  have hres' : store.queryResult client q k rt = .ok res := hres
  rcases queryResult_shape store client q k with hsh | ⟨e, hsh⟩ | ⟨scored, hsh⟩
  · rw [hsh rt] at hres'
    simp only [Except.ok.injEq] at hres'
    subst hres'
    cases hc
  · rw [hsh rt] at hres'
    cases hres'
  · rw [hsh rt] at hres'
    exact selectTopChunks_mem_copy scored store.chunks rt res hres' c hc

/-- Witness for C8: an unfiltered query on a concrete two-chunk store
leaves the store intact and returns scored copies of both chunks. -/
theorem c8_query_copy_on_query_witness :
    (RuleStore.query faissStore demoClient "q" 2 []).1 = faissStore ∧
    (∀ c ∈ [demoChunkSeoScored, demoChunkToneScored], ∃ i,
      ∃ hi : i < faissStore.chunks.length, ∃ s : ℝ,
        c = scoredCopy (faissStore.chunks.get ⟨i, hi⟩) s) :=
  ⟨(c8_query_copy_on_query faissStore demoClient "q" 2 []).1,
   (c8_query_copy_on_query faissStore demoClient "q" 2 []).2
     [demoChunkSeoScored, demoChunkToneScored] rfl⟩

/-! ## Claim C9: the tagger -/

/-- Claim C9: tagging "Use a clear call to action near every heading"
yields exactly `["cta", "structure"]` (the sorted set), and any text
matching none of the four keyword vocabularies is tagged exactly
`["general"]`. -/
theorem c9_tagger_scenario_and_general :
    _guess_tags_from_text "Use a clear call to action near every heading" =
      ["cta", "structure"] ∧
    ∀ text : String,
      (∀ kw ∈ seoKeywords, strContains (pyLower text) kw = false) →
      (∀ kw ∈ structureKeywords, strContains (pyLower text) kw = false) →
      (∀ kw ∈ ctaKeywords, strContains (pyLower text) kw = false) →
      (∀ kw ∈ toneKeywords, strContains (pyLower text) kw = false) →
      _guess_tags_from_text text = ["general"] := by
  constructor
  · decide
  · intro text h1 h2 h3 h4
    have e1 : (seoKeywords.any fun kw => strContains (pyLower text) kw) = false :=
      List.any_eq_false.mpr fun kw hkw => by simp [h1 kw hkw]
    have e2 : (structureKeywords.any fun kw => strContains (pyLower text) kw) = false :=
      List.any_eq_false.mpr fun kw hkw => by simp [h2 kw hkw]
    have e3 : (ctaKeywords.any fun kw => strContains (pyLower text) kw) = false :=
      List.any_eq_false.mpr fun kw hkw => by simp [h3 kw hkw]
    have e4 : (toneKeywords.any fun kw => strContains (pyLower text) kw) = false :=
      List.any_eq_false.mpr fun kw hkw => by simp [h4 kw hkw]
    simp [_guess_tags_from_text, e1, e2, e3, e4, sortStrings, insertSorted]

/-- Witness for C9's general clause at a keyword-free text. -/
theorem c9_tagger_scenario_and_general_witness :
    _guess_tags_from_text "follow up with patients weekly" = ["general"] :=
  c9_tagger_scenario_and_general.2 "follow up with patients weekly"
    (by decide) (by decide) (by decide) (by decide)

/-! ## Claim C10: the static-rule formatter -/

/-- A category whose rules all strip to empty de-duplicates to
nothing. -/
lemma dedupRulesAux_nil (rules : List String) (h : ∀ r ∈ rules, pyStrip r = "") :
    ∀ seen, dedupRulesAux seen rules = [] := by
  induction rules with
  | nil => intro seen; rfl
  | cons r rest ih =>
    intro seen
    rw [dedupRulesAux, if_pos (Or.inl (h r (by simp)))]
    exact ih (fun x hx => h x (by simp [hx])) seen

/-- When every rule of every category strips to empty, no section
survives. -/
lemma sectionsOf_nil (sr : List (String × List String))
    (h : ∀ p ∈ sr, ∀ r ∈ p.2, pyStrip r = "") : sectionsOf sr = [] := by
  induction sr with
  | nil => rfl
  | cons p rest ih =>
    obtain ⟨name, rules⟩ := p
    rw [sectionsOf]
    have hrest : ∀ q ∈ rest, ∀ r ∈ q.2, pyStrip r = "" := fun q hq => h q (by simp [hq])
    by_cases hr0 : rules = []
    · rw [if_pos hr0]
      exact ih hrest
    · rw [if_neg hr0, if_pos (dedupRulesAux_nil rules (h (name, rules) (by simp)) [])]
      exact ih hrest

/-- Every rendered section contains a newline character (title line
plus at least one rule line). -/
lemma sectionsOf_mem_newline (sr : List (String × List String)) (x : String)
    (hx : x ∈ sectionsOf sr) : '\n' ∈ x.data := by
  induction sr with
  | nil => cases hx
  | cons p rest ih =>
    obtain ⟨name, rules⟩ := p
    rw [sectionsOf] at hx
    by_cases h1 : rules = []
    · rw [if_pos h1] at hx
      exact ih hx
    · rw [if_neg h1] at hx
      by_cases h2 : dedupRulesAux [] rules = []
      · rw [if_pos h2] at hx
        exact ih hx
      · rw [if_neg h2] at hx
        rcases List.mem_cons.mp hx with hx | hx
        · subst hx
          have hn : '\n' ∈ ("\n" : String).data := by decide
          rw [String.data_append, String.data_append]
          exact List.mem_append.mpr (Or.inl (List.mem_append.mpr (Or.inr hn)))
        · exact ih hx

/-- A non-empty list of newline-carrying strings joins (with blank-line
separators) to a newline-carrying string. -/
lemma joinSep_newline (l : List String) (hl : l ≠ []) (h : ∀ x ∈ l, '\n' ∈ x.data) :
    '\n' ∈ (joinSep "\n\n" l).data := by
  cases l with
  | nil => exact absurd rfl hl
  | cons x rest =>
    cases rest with
    | nil =>
      rw [joinSep]
      exact h x (by simp)
    | cons y rest2 =>
      rw [joinSep, String.data_append, String.data_append]
      exact List.mem_append.mpr (Or.inl (List.mem_append.mpr (Or.inl (h x (by simp)))))

/-- Claim C10: the static-rule formatter answers the fallback sentence
exactly when the mapping itself is empty; a non-empty mapping whose
rules are all blank (after stripping) formats to the empty string, not
to the fallback. -/
theorem c10_rule_block_fallback_iff_empty (static_rules : List (String × List String)) :
    (_format_rule_block static_rules = "No static rules available." ↔ static_rules = []) ∧
    (static_rules ≠ [] → (∀ p ∈ static_rules, ∀ r ∈ p.2, pyStrip r = "") →
      _format_rule_block static_rules = "") := by
  constructor
  · constructor
    · intro hfb
      by_contra hne
      rw [_format_rule_block, if_neg hne] at hfb
      cases hsec : sectionsOf static_rules with
      | nil =>
        rw [hsec] at hfb
        exact absurd hfb (by decide)
      | cons x rest =>
        have hx : '\n' ∈ (joinSep "\n\n" (x :: rest)).data := by
          apply joinSep_newline _ (by simp)
          intro y hy
          exact sectionsOf_mem_newline static_rules y (hsec ▸ hy)
        rw [hsec] at hfb
        rw [hfb] at hx
        exact absurd hx (by decide)
    · intro h
      subst h
      rfl
  · intro hne hall
    rw [_format_rule_block, if_neg hne, sectionsOf_nil static_rules hall]
    rfl

/-- Witness for C10: a non-empty mapping with only blank rules formats
to the empty string. -/
theorem c10_rule_block_fallback_iff_empty_witness :
    _format_rule_block [("seo", ["", "   "])] = "" :=
  (c10_rule_block_fallback_iff_empty [("seo", ["", "   "])]).2 (by simp) (by decide)

end ContentGen
